import Mathlib

/-!
Verification development for the CoHDL compiler core as described by the
repository's documentation.  The repository is narrative material (notebooks)
describing, rather than containing, the compiler, so the compiler itself is
modelled from the specification: the object-qualification model, the
control-flow normalizer, the state-machine synthesis pass for coroutines and
the backend lowering.  Each definition's doc comment records which part of the
specification it models.
-/

namespace CoHDL

/-- Modelled from the spec: the compiler's error taxonomy (spec section 7);
the concrete error-raising implementation is not part of this repository. -/
inductive CompileError
| RedefinitionError
| InvalidAssignmentModeError
| MultipleDriverError
| UnsupportedConstructError
| UnboundedRecursionError
| InvalidSuspensionContextError
| UnboundedDuplicationError
| CompileTimeAssertionError
deriving DecidableEq, Repr

/-- Runtime guards are identified by the id of the Signal they read. -/
abbrev Guard := Nat

/-- Observable action labels (an abstract non-suspending statement such as a
signal assignment); the state-machine claims only concern when they run. -/
abbrev Act := Nat

/-- Modelled from the spec: the exit condition of a suspending while loop is
either compile-time constant true (a plain `while True`) or runtime-variable
(it reads a Signal). -/
inductive Cond
| ctrue
| sig (g : Guard)
deriving DecidableEq, Repr

/-- Evaluate a loop condition against the current signal environment. -/
def Cond.eval (env : Guard → Bool) : Cond → Bool
| .ctrue => true
| .sig g => env g

/-- Modelled from the spec: normalized statement forms of a SequentialContext
body that reach the state-machine synthesizer: plain actions, primitive
awaits, suspending while loops, runtime-conditioned ifs, break and continue
(spec section 3, Statement (IR) node). -/
inductive Stm
| act (a : Act)
| awaitP (g : Guard)
| whileS (c : Cond) (body : List Stm)
| ifG (g : Guard) (thn els : List Stm)
| brk
| cont
deriving Repr

mutual

/-- Size of a statement; a suspending-while body is not counted because a
single clock cycle never enters a loop body other than through its head
state boundary. -/
def stmSize : Stm → Nat
| .act _ => 1
| .awaitP _ => 1
| .whileS _ _ => 1
| .ifG _ t e => 1 + stmsSize t + stmsSize e
| .brk => 1
| .cont => 1

/-- Size of a statement list, used as the termination measure of the
single-cycle interpreter. -/
def stmsSize : List Stm → Nat
| [] => 0
| s :: rest => stmSize s + stmsSize rest

end

/-- The statement-list size measure is additive over append; needed for the
termination of the single-cycle interpreter below. -/
theorem stmsSize_append (l₁ l₂ : List Stm) :
    stmsSize (l₁ ++ l₂) = stmsSize l₁ + stmsSize l₂ := by
  induction l₁ with
  | nil => simp [stmsSize]
  | cons s rest ih => simp [stmsSize, ih]; omega

/-- Modelled from the spec: the continuation of execution that is pending
behind the current position; `loop` records the enclosing suspending while
together with the statements after it, `top` is the end of the coroutine
body. -/
inductive Kont
| top
| loop (c : Cond) (body : List Stm) (rest : List Stm) (k : Kont)

/-- Size of the pending continuation; a break jumps to the `rest` stored in
the innermost loop frame, so that code is part of the measure. -/
def kontSize : Kont → Nat
| .top => 0
| .loop _ _ rest k => 1 + stmsSize rest + kontSize k

/-- Modelled from the spec: a node of the synthesized automaton, identified by
the suspension point it waits at.  `initial` is the designated initial state
when the body begins with straight-line code, `waiting` is the wait state of
an `Await(Primitive g)`, `atHead` is the head state of a suspending while. -/
inductive Config
| initial
| waiting (g : Guard) (rest : List Stm) (k : Kont)
| atHead (c : Cond) (body : List Stm) (rest : List Stm) (k : Kont)

/-- Modelled from the spec: the designated initial state of the automaton.
When the body begins directly with a suspension construct, the initial state
is that construct's own wait state; otherwise it is the state running the
body's leading straight-line code. -/
def startConfig (prog : List Stm) : Config :=
  match prog with
  | .awaitP g :: rest => .waiting g rest .top
  | .whileS c body :: rest => .atHead c body rest .top
  | _ => .initial

/-- Modelled from the spec (section 4.3): execution of one clock cycle of the
synthesized automaton, from the current position to the next state boundary.
Statements run and accumulate their actions until an `Await(Primitive)` or the
entry of a suspending while ends the state.  Reaching the end of the coroutine
body produces a transition back to the designated initial state.  A break is
replaced by the code following the loop (the duplicated tail), so it jumps to
the loop frame's `rest` without re-testing the loop condition.  A break with
no enclosing loop is rejected by the compiler, and a continue is eliminated by
duplication before execution (see `elimContinue`); both yield `none` here. -/
def runFree (prog : List Stm) (env : Guard → Bool) :
    List Stm → Kont → List Act → Option (Config × List Act)
| [], .top, acc => some (startConfig prog, acc)
| [], .loop c body rest k, acc => some (.atHead c body rest k, acc)
| .act a :: xs, k, acc => runFree prog env xs k (acc ++ [a])
| .awaitP g :: xs, k, acc => some (.waiting g xs k, acc)
| .whileS c body :: xs, k, acc => some (.atHead c body xs k, acc)
| .ifG g t e :: xs, k, acc =>
    if env g then runFree prog env (t ++ xs) k acc
    else runFree prog env (e ++ xs) k acc
| .brk :: _, .loop _ _ rest k, acc => runFree prog env rest k acc
| .brk :: _, .top, _ => none
| .cont :: _, _, _ => none
termination_by l k _ => stmsSize l + kontSize k
decreasing_by
all_goals simp_arith [stmsSize, stmSize, kontSize, stmsSize_append]

/-- Modelled from the spec: one clock edge of a SequentialContext.  Each state
corresponds to exactly one clock edge: a wait state re-tests its guard each
cycle and, once true, runs the code up to the next boundary within that same
cycle; a loop-head state tests the loop condition and either enters the body
or proceeds with the code after the loop. -/
def runCycle (prog : List Stm) (env : Guard → Bool) :
    Config → Option (Config × List Act)
| .initial => runFree prog env prog .top []
| .waiting g rest k =>
    if env g then runFree prog env rest k [] else some (.waiting g rest k, [])
| .atHead c body rest k =>
    if c.eval env then runFree prog env body (.loop c body rest k) []
    else runFree prog env rest k []

/-- Iterated cycles: `runCycles prog envs t n cfg` runs `n` clock edges
starting at time `t` in configuration `cfg`, under the signal-environment
trace `envs`, returning the final configuration. -/
def runCycles (prog : List Stm) (envs : Nat → Guard → Bool) :
    Nat → Nat → Config → Option Config
| _, 0, cfg => some cfg
| t, n+1, cfg =>
    match runCycle prog (envs t) cfg with
    | none => none
    | some (c, _) => runCycles prog envs (t+1) n c

/-- Modelled from the spec: the statements that introduce a state transition
are primitive awaits and suspending-while entries. -/
def isTransition : Stm → Bool
| .awaitP _ => true
| .whileS _ _ => true
| _ => false

/-- Modelled from the spec: the code from the given position up to and
including the next pending transition; when no explicit transition follows,
the whole remainder is taken (the pending transition is then the implicit
end-of-body transition back to the start). -/
def takeThroughTransition : List Stm → List Stm
| [] => []
| s :: rest => if isTransition s then [s] else s :: takeThroughTransition rest

/-- Every single statement has positive size. -/
theorem stmSize_pos (s : Stm) : 0 < stmSize s := by
  cases s <;> simp_arith [stmSize]

/-- Modelled from the spec: the code duplicated at a break site - the tail
code following the loop, up to and including the pending transition. -/
def dupBreak (tail : List Stm) : List Stm := takeThroughTransition tail

/-- Modelled from the spec: the code duplicated at a continue site - the
loop-head code including its guard; when the loop's exit condition is
runtime-variable, the code following the loop is duplicated as well, covering
the case where the condition has become false. -/
def dupContinue (c : Cond) (body tail : List Stm) : List Stm :=
  match c with
  | .ctrue => takeThroughTransition body
  | .sig g => [.ifG g (takeThroughTransition body) (takeThroughTransition tail)]

/-- Modelled from the spec: the synthesizer's break elimination - every break
belonging to this loop is replaced with the duplicate `dupB`, and the dead
code behind it is dropped.  Breaks inside a nested suspending while belong to
that inner loop and are left for its own elimination. -/
def substBreak (dupB : List Stm) : List Stm → List Stm
| [] => []
| .brk :: _ => dupB
| .ifG g t e :: rest =>
    .ifG g (substBreak dupB t) (substBreak dupB e) :: substBreak dupB rest
| s :: rest => s :: substBreak dupB rest
termination_by l => stmsSize l
decreasing_by all_goals (simp_arith [stmsSize, stmSize]; try exact stmSize_pos _)

/-- Modelled from the spec: the synthesizer's continue elimination - every
continue belonging to this loop is replaced with the duplicate `dupC`, and the
dead code behind it is dropped. -/
def substCont (dupC : List Stm) : List Stm → List Stm
| [] => []
| .cont :: _ => dupC
| .ifG g t e :: rest =>
    .ifG g (substCont dupC t) (substCont dupC e) :: substCont dupC rest
| s :: rest => s :: substCont dupC rest
termination_by l => stmsSize l
decreasing_by all_goals (simp_arith [stmsSize, stmSize]; try exact stmSize_pos _)

/-- Modelled from the spec: the check guarding continue duplication.  The
first component is true when every continue of this loop body has at least
one state transition between the loop head and itself (on every path leading
to it); the second component records whether a transition is guaranteed to
have occurred once the list has been traversed, given that `seen` records
whether one had occurred before it. -/
def checkCont : Bool → List Stm → Bool × Bool
| seen, [] => (true, seen)
| seen, .cont :: _ => (seen, seen)
| seen, .brk :: _ => (true, seen)
| seen, .awaitP _ :: rest => checkCont true rest
| seen, .whileS _ _ :: rest => checkCont true rest
| seen, .act _ :: rest => checkCont seen rest
| seen, .ifG _ t e :: rest =>
    ((checkCont seen t).1 && (checkCont seen e).1 &&
      (checkCont ((checkCont seen t).2 && (checkCont seen e).2) rest).1,
     (checkCont ((checkCont seen t).2 && (checkCont seen e).2) rest).2)
termination_by _ l => stmsSize l
decreasing_by all_goals (simp_arith [stmsSize, stmSize]; try exact stmSize_pos _)

/-- Modelled from the spec: break elimination for one suspending while with
body `body` followed by `tail`. -/
def elimBreak (body tail : List Stm) : List Stm :=
  substBreak (dupBreak tail) body

/-- Modelled from the spec: continue elimination for one suspending while.
When some continue has no state transition between the loop head and itself,
duplication would re-embed the continue statement, producing infinite
expansion, so compilation fails with UnboundedDuplicationError; otherwise the
loop-head duplicate (and, for a runtime-variable exit condition, the tail
duplicate) replaces each continue. -/
def elimContinue (c : Cond) (body tail : List Stm) :
    Except CompileError (List Stm) :=
  if (checkCont false body).1 then
    .ok (substCont (dupContinue c body tail) body)
  else
    .error .UnboundedDuplicationError

/-- Modelled from the spec: recognizer for the special for-loop body pattern,
a single If whose branch ends in Break and whose else-part is empty; returns
the condition and the branch without the final break. -/
def matchIfBreak : List Stm → Option (Guard × List Stm)
| [Stm.ifG c thn []] =>
    match thn.getLast? with
    | some .brk => some (c, thn.dropLast)
    | _ => none
| _ => none

/-- Modelled from the spec: the chain of If/Else-if/Else produced for a for
loop whose body is a single If ending in Break; the fallback block of the
for-else clause is placed in the innermost else. -/
def forBreakChain : List (Guard × List Stm) → List Stm → List Stm
| [], fallback => fallback
| (c, br) :: rest, fallback => [.ifG c br (forBreakChain rest fallback)]

/-- Runs the special-case matcher over every iteration body; succeeds exactly
when each body is a single If ending in Break. -/
def matchAllIfBreak : List (List Stm) → Option (List (Guard × List Stm))
| [] => some []
| b :: rest =>
    match matchIfBreak b, matchAllIfBreak rest with
    | some p, some ps => some (p :: ps)
    | _, _ => none

/-- Modelled from the spec: normalization of a for loop, given the body
instantiated for each iteration.  When every iteration body is a single If
ending in Break the loop is not unrolled but rewritten into the if-chain
(with the for-else fallback innermost); otherwise the loop is fully unrolled
into one copy of the body per iteration (a fallback is only permitted in the
if-break pattern). -/
def normFor (bodies : List (List Stm)) (fallback : List Stm) : List Stm :=
  match matchAllIfBreak bodies with
  | some arms => forBreakChain arms fallback
  | none => bodies.flatten

/-- Stated from the specification's words, for comparison with the rewrite
performed by the normalizer: first-true selection returns the branch of the
first iteration whose condition is true, if any. -/
def firstTrue (env : Guard → Bool) : List (Guard × List Stm) → Option (List Stm)
| [] => none
| (c, br) :: rest => if env c then some br else firstTrue env rest

/-- Modelled from the spec: assignment modes of a StorageObject - `next` is
the delayed signal assignment, `push` the one-cycle pulse assignment, `value`
the immediate Variable assignment. -/
inductive AssignMode
| next
| push
| value
deriving DecidableEq, Repr

/-- Modelled from the spec: validation of the assignment modes applied to one
StorageObject over its lifetime.  Applying both PUSH and NEXT to the same
object, or PUSH to a Signal without a default value, fails with
InvalidAssignmentModeError. -/
def checkModes (hasDefault : Bool) (modes : List AssignMode) :
    Except CompileError Unit :=
  if AssignMode.push ∈ modes ∧ AssignMode.next ∈ modes then
    .error .InvalidAssignmentModeError
  else if AssignMode.push ∈ modes ∧ hasDefault = false then
    .error .InvalidAssignmentModeError
  else
    .ok ()

/-- Modelled from the spec: a backend statement of a sequential context, an
assignment with its explicit mode or a runtime-conditioned if. -/
inductive SeqStm
| assign (target : Nat) (value : Nat) (mode : AssignMode)
| ifRt (g : Guard) (thn els : List SeqStm)
deriving Repr

mutual

/-- Size of a backend statement, termination measure for its evaluator. -/
def seqStmSize : SeqStm → Nat
| .assign _ _ _ => 1
| .ifRt _ t e => 1 + seqStmsSize t + seqStmsSize e

/-- Size of a backend statement list. -/
def seqStmsSize : List SeqStm → Nat
| [] => 0
| s :: rest => seqStmSize s + seqStmsSize rest

end

/-- One executed assignment of a generated invocation: target object, value
and mode, in execution order. -/
structure AssignEvt where
  target : Nat
  value : Nat
  mode : AssignMode
deriving DecidableEq, Repr

/-- The sequence of assignments executed by one invocation of a sequential
context body under the signal environment `env`. -/
def execSeq (env : Guard → Bool) : List SeqStm → List AssignEvt
| [] => []
| .assign t v m :: rest => ⟨t, v, m⟩ :: execSeq env rest
| .ifRt g thn els :: rest =>
    (if env g then execSeq env thn else execSeq env els) ++ execSeq env rest
termination_by l => seqStmsSize l
decreasing_by all_goals simp_arith [seqStmsSize, seqStmSize]

/-- Modelled from the spec: the PUSH lowering.  For every Signal assigned
with PUSH mode in a context (given here with its default value), the compiler
inserts an assignment of the default at context entry, ahead of the body. -/
def insertPushDefaults (pushSigs : List (Nat × Nat)) (body : List SeqStm) :
    List SeqStm :=
  pushSigs.map (fun sd => SeqStm.assign sd.1 sd.2 AssignMode.next) ++ body

/-- Modelled from the spec: normalization of an If whose condition is not a
type-qualified object.  The condition is evaluated at compile time; only the
taken branch is validated and retained, the discarded branch produces no
output and is not checked for runtime validity.  The runtime-validity check
is abstracted as the `validate` argument. -/
def normConstIf (validate : List SeqStm → Except CompileError (List SeqStm))
    (b : Bool) (thn els : List SeqStm) : Except CompileError (List SeqStm) :=
  if b then validate thn else validate els

/-- Modelled from the spec: the global driver check.  Each context is given
by the list of Signals it drives unconditionally; the check fails with
MultipleDriverError when two distinct contexts both drive some Signal. -/
def checkDrivers : List (List Nat) → Except CompileError Unit
| [] => .ok ()
| ctx :: rest =>
    if ctx.any (fun s => rest.any (fun c => s ∈ c)) then
      .error .MultipleDriverError
    else
      checkDrivers rest

/-- Port directions. -/
inductive PortDir
| dirIn
| dirOut
deriving DecidableEq, Repr

/-- Modelled from the spec: an expression over StorageObjects occurring in a
context, reading Signals, Ports or the internally inserted buffer Signal of
an output Port. -/
inductive Expr
| readSig (s : Nat)
| readPort (p : Nat)
| readBuf (p : Nat)
| unop (e : Expr)
| binop (l r : Expr)
deriving Repr

/-- Assignment targets after lowering: an internal Signal, a Port, or the
buffer Signal inserted for an output Port. -/
inductive Tgt
| sig (s : Nat)
| port (p : Nat)
| buf (p : Nat)
deriving DecidableEq, Repr

/-- A concurrent driving statement of the lowered design. -/
structure CAssign where
  target : Tgt
  value : Expr

/-- Modelled from the spec: rewriting of expressions inside a context - every
read of an output Port is redirected to the internally inserted buffer Signal
of that port; reads of input Ports and Signals are unchanged. -/
def rewriteExpr (dir : Nat → PortDir) : Expr → Expr
| .readSig s => .readSig s
| .readPort p => if dir p = .dirOut then .readBuf p else .readPort p
| .readBuf p => .readBuf p
| .unop e => .unop (rewriteExpr dir e)
| .binop l r => .binop (rewriteExpr dir l) (rewriteExpr dir r)

/-- Modelled from the spec: rewriting of a driving statement - writes to an
output Port are redirected to its buffer Signal, and the driven expression is
rewritten. -/
def rewriteAssign (dir : Nat → PortDir) (a : CAssign) : CAssign :=
  { target :=
      match a.target with
      | .port p => if dir p = .dirOut then .buf p else .port p
      | t => t
    value := rewriteExpr dir a.value }

/-- Whether an expression reads port `p` directly (not through its buffer). -/
def readsPort (p : Nat) : Expr → Bool
| .readPort q => q == p
| .unop e => readsPort p e
| .binop l r => readsPort p l || readsPort p r
| _ => false

/-- Whether a driving statement targets port `p` itself. -/
def targetsPort (p : Nat) (a : CAssign) : Bool :=
  match a.target with
  | .port q => q == p
  | _ => false

/-- Modelled from the spec: lowering of a design - the context body with all
output-Port accesses redirected to buffer Signals, followed by, for each
output Port, the single buffer-to-port assignment that keeps the port itself
write-only at the hardware boundary. -/
def lowerDesign (dir : Nat → PortDir) (outs : List Nat) (body : List CAssign) :
    List CAssign :=
  body.map (rewriteAssign dir) ++
    outs.map (fun p => ⟨Tgt.port p, Expr.readBuf p⟩)

/-- Modelled from the spec: the reset branch generated for a context compiled
with a Reset parameter - every Signal or Variable driven by the context that
has a default value is assigned that default; all other storage is left
unchanged. -/
def resetState (driven : List Nat) (defaultOf : Nat → Option Nat)
    (st : Nat → Nat) : Nat → Nat :=
  match driven with
  | [] => st
  | t :: rest =>
      match defaultOf t with
      | some d => resetState rest defaultOf (Function.update st t d)
      | none => resetState rest defaultOf st

/-- Modelled from the spec: one generated invocation of a sequential context
compiled with a Reset parameter - when the reset is active the reset branch
runs, otherwise the context body runs. -/
def seqInvocation (resetActive : Bool) (driven : List Nat)
    (defaultOf : Nat → Option Nat) (body : (Nat → Nat) → Nat → Nat)
    (st : Nat → Nat) : Nat → Nat :=
  if resetActive then resetState driven defaultOf st else body st

/-- Straight-line actions accumulate without ending the cycle: running a
statement list that begins with pure actions appends those actions to the
accumulator and continues with the remainder. -/
theorem runFree_acts (prog : List Stm) (env : Guard → Bool) (pre : List Act)
    (l : List Stm) (k : Kont) (acc : List Act) :
    runFree prog env (pre.map Stm.act ++ l) k acc =
      runFree prog env l k (acc ++ pre) := by
  induction pre generalizing acc with
  | nil => simp
  | cons a pre ih =>
      simp only [List.map_cons, List.cons_append, runFree]
      rw [ih]
      simp

/-- Time-invariance of the automaton: running `n` cycles from time `t + d`
under `envs` is running them from time `t` under the shifted trace. -/
theorem runCycles_shift (prog : List Stm) (envs : Nat → Guard → Bool)
    (n : Nat) : ∀ t d cfg,
    runCycles prog envs (d + t) n cfg =
      runCycles prog (fun i => envs (d + i)) t n cfg := by
  induction n with
  | zero => intro t d cfg; simp [runCycles]
  | succ n ih =>
      intro t d cfg
      simp only [runCycles]
      cases runCycle prog (envs (d + t)) cfg with
      | none => simp
      | some c =>
          simp only []
          have := ih (t + 1) d c.1
          rw [show d + (t + 1) = d + t + 1 by omega] at this
          exact this

/-- C1: for every SequentialContext, an `Await(Primitive x)` introduces a
state boundary: the cycle that reaches the await - after any straight-line
code `pre` since the previous boundary - executes exactly the actions of
`pre`, nothing of the code following the await, and suspends in the await's
wait state, even when `x` is already true in that cycle; the statement
following the await executes in a later cycle, at the earliest in the very
next one when `x` is (still) true then - execution advances exactly one
state, at a cost of at least one clock cycle. -/
theorem awaitPrimitive_one_state (prog : List Stm) (pre : List Act)
    (x : Guard) (rest : List Stm) (k : Kont) (env env2 : Guard → Bool)
    (hx : env x = true) (hx2 : env2 x = true) :
    runFree prog env (pre.map Stm.act ++ Stm.awaitP x :: rest) k [] =
      some (Config.waiting x rest k, pre)
    ∧ runCycle prog env2 (Config.waiting x rest k) =
        runFree prog env2 rest k [] := by
  constructor
  · rw [runFree_acts]
    simp [runFree]
  · simp [runCycle, hx2]

/-- Closed instance of `awaitPrimitive_one_state` at a concrete program and
environment with the awaited signal already true. -/
theorem awaitPrimitive_one_state_witness :
    runFree [Stm.act 7, Stm.awaitP 0, Stm.act 9] (fun _ => true)
        ([7].map Stm.act ++ Stm.awaitP 0 :: [Stm.act 9]) Kont.top [] =
      some (Config.waiting 0 [Stm.act 9] Kont.top, [7])
    ∧ runCycle [Stm.act 7, Stm.awaitP 0, Stm.act 9] (fun _ => true)
        (Config.waiting 0 [Stm.act 9] Kont.top) =
        runFree [Stm.act 7, Stm.awaitP 0, Stm.act 9] (fun _ => true)
          [Stm.act 9] Kont.top [] :=
  awaitPrimitive_one_state [Stm.act 7, Stm.awaitP 0, Stm.act 9] [7] 0
    [Stm.act 9] Kont.top (fun _ => true) (fun _ => true) rfl rfl

/-- C9: for every SequentialContext defined by a coroutine, completing the
coroutine body during some cycle transitions the automaton back to the
designated initial state: one clock cycle later it is in `startConfig prog`,
the cycle after the completing one behaves exactly like the very first cycle
of the automaton, and every later behavior from that point coincides with the
behavior from time zero under the correspondingly shifted signal trace - the
synthesized automaton repeats its sequence indefinitely. -/
theorem coroutineEnd_wraps_to_start (prog : List Stm)
    (envs : Nat → Guard → Bool) (t n : Nat) (cfg : Config) (acts : List Act)
    (h : runCycle prog (envs t) cfg = some (startConfig prog, acts)) :
    runCycles prog envs t 1 cfg = some (startConfig prog)
    ∧ runCycles prog envs (t+1) n (startConfig prog) =
        runCycles prog (fun i => envs (t+1+i)) 0 n (startConfig prog) := by
  refine ⟨?_, ?_⟩
  · simp [runCycles, h]
  · have := runCycles_shift prog envs n 0 (t+1) (startConfig prog)
    simpa using this

/-- Closed instance of `coroutineEnd_wraps_to_start`: a coroutine consisting
of one await followed by one action completes its body in a cycle where the
awaited signal is true, and the automaton is back in its initial state one
cycle later. -/
theorem coroutineEnd_wraps_to_start_witness :
    runCycles [Stm.awaitP 0, Stm.act 5] (fun _ _ => true) 0 1
        (Config.waiting 0 [Stm.act 5] Kont.top) =
      some (startConfig [Stm.awaitP 0, Stm.act 5])
    ∧ runCycles [Stm.awaitP 0, Stm.act 5] (fun _ _ => true) 1 3
        (startConfig [Stm.awaitP 0, Stm.act 5]) =
        runCycles [Stm.awaitP 0, Stm.act 5] (fun _ _ => true) 0 3
          (startConfig [Stm.awaitP 0, Stm.act 5]) :=
  coroutineEnd_wraps_to_start [Stm.awaitP 0, Stm.act 5] (fun _ _ => true) 0 3
    (Config.waiting 0 [Stm.act 5] Kont.top) [5] (by simp [runCycle, runFree, startConfig])

/-- Break elimination passes over straight-line actions unchanged. -/
theorem substBreak_acts (dupB : List Stm) (S : List Act) (l : List Stm) :
    substBreak dupB (S.map Stm.act ++ l) = S.map Stm.act ++ substBreak dupB l := by
  induction S with
  | nil => simp
  | cons a S ih => simp [substBreak, ih]

/-- Continue elimination passes over straight-line actions unchanged. -/
theorem substCont_acts (dupC : List Stm) (S : List Act) (l : List Stm) :
    substCont dupC (S.map Stm.act ++ l) = S.map Stm.act ++ substCont dupC l := by
  induction S with
  | nil => simp
  | cons a S ih => simp [substCont, ih]

/-- The continue check passes over straight-line actions unchanged. -/
theorem checkCont_acts (seen : Bool) (S : List Act) (l : List Stm) :
    checkCont seen (S.map Stm.act ++ l) = checkCont seen l := by
  induction S with
  | nil => simp
  | cons a S ih => simp [checkCont, ih]

/-- The code through the next transition extends over straight-line actions. -/
theorem takeThroughTransition_acts (S : List Act) (l : List Stm) :
    takeThroughTransition (S.map Stm.act ++ l) =
      S.map Stm.act ++ takeThroughTransition l := by
  induction S with
  | nil => simp
  | cons a S ih => simp [takeThroughTransition, isTransition, ih]

/-- C2: for every Break inside a suspending while loop - here a loop with
body `S; if flag: break` followed by the arbitrary tail `tail` - the
synthesizer duplicates at the break site the code following the loop up to
and including the pending transition and redirects control there: break
elimination rewrites the body so that the break statement is replaced by
exactly `takeThroughTransition tail`, and executing the cycle that takes the
break path runs the remaining body statements `S` and then continues directly
with the post-loop tail at top level - the loop condition is not re-tested on
that path. -/
theorem breakDuplicatesTail (S : List Act) (flag : Guard) (c : Cond)
    (tail : List Stm) (prog : List Stm) (env : Guard → Bool)
    (hc : c.eval env = true) (hf : env flag = true) :
    elimBreak (S.map Stm.act ++ [Stm.ifG flag [Stm.brk] []]) tail =
      S.map Stm.act ++ [Stm.ifG flag (takeThroughTransition tail) []]
    ∧ runCycle prog env
        (Config.atHead c (S.map Stm.act ++ [Stm.ifG flag [Stm.brk] []]) tail
          Kont.top) =
        runFree prog env tail Kont.top S := by
  constructor
  · simp [elimBreak, dupBreak, substBreak_acts, substBreak]
  · simp only [runCycle, hc, if_true]
    rw [runFree_acts]
    simp [runFree, hf]

/-- Closed instance of `breakDuplicatesTail` at a concrete loop, tail and
environment taking the break path. -/
theorem breakDuplicatesTail_witness :
    elimBreak ([3].map Stm.act ++ [Stm.ifG 1 [Stm.brk] []])
        [Stm.act 4, Stm.awaitP 2, Stm.act 6] =
      [3].map Stm.act ++
        [Stm.ifG 1
          (takeThroughTransition [Stm.act 4, Stm.awaitP 2, Stm.act 6]) []]
    ∧ runCycle [] (fun _ => true)
        (Config.atHead (Cond.sig 0)
          ([3].map Stm.act ++ [Stm.ifG 1 [Stm.brk] []])
          [Stm.act 4, Stm.awaitP 2, Stm.act 6] Kont.top) =
        runFree [] (fun _ => true) [Stm.act 4, Stm.awaitP 2, Stm.act 6]
          Kont.top [3] :=
  breakDuplicatesTail [3] 1 (Cond.sig 0) [Stm.act 4, Stm.awaitP 2, Stm.act 6]
    [] (fun _ => true) rfl rfl

/-- C3: for every Continue inside a suspending while loop: when at least one
state transition lies between the loop head and the continue - here the loop
body `S; await x; if flag: continue` - continue elimination succeeds and
duplicates the loop-head code including its guard at the continue site; for a
runtime-variable exit condition `sig g` the code following the loop is
duplicated there as well, while for the constant condition `True` only the
head code is duplicated; and when no transition lies between the loop head
and the continue - the body `if flag: continue` - compilation fails with
UnboundedDuplicationError. -/
theorem continueDuplication_and_error (S : List Act) (x flag g : Guard)
    (tail : List Stm) :
    elimContinue (Cond.sig g)
        (S.map Stm.act ++ [Stm.awaitP x, Stm.ifG flag [Stm.cont] []]) tail =
      Except.ok (S.map Stm.act ++
        [Stm.awaitP x,
         Stm.ifG flag
           [Stm.ifG g (S.map Stm.act ++ [Stm.awaitP x])
             (takeThroughTransition tail)] []])
    ∧ elimContinue Cond.ctrue
        (S.map Stm.act ++ [Stm.awaitP x, Stm.ifG flag [Stm.cont] []]) tail =
      Except.ok (S.map Stm.act ++
        [Stm.awaitP x,
         Stm.ifG flag (S.map Stm.act ++ [Stm.awaitP x]) []])
    ∧ elimContinue (Cond.sig g) [Stm.ifG flag [Stm.cont] []] tail =
      Except.error CompileError.UnboundedDuplicationError := by
  refine ⟨?_, ?_, ?_⟩
  · simp [elimContinue, checkCont_acts, checkCont, dupContinue,
      takeThroughTransition_acts, takeThroughTransition, isTransition,
      substCont_acts, substCont]
  · simp [elimContinue, checkCont_acts, checkCont, dupContinue,
      takeThroughTransition_acts, takeThroughTransition, isTransition,
      substCont_acts, substCont]
  · simp [elimContinue, checkCont]

/-- A single If whose branch ends in Break and whose else is empty is
recognized by the for-loop special-case matcher. -/
theorem matchIfBreak_pattern (c : Guard) (br : List Stm) :
    matchIfBreak [Stm.ifG c (br ++ [Stm.brk]) []] = some (c, br) := by
  simp [matchIfBreak]

/-- Instantiating the single-if-ending-in-break body per iteration and running
the matcher over all iterations recovers the per-iteration conditions and
branches. -/
theorem matchAllIfBreak_pattern (iters : List (Guard × List Stm)) :
    matchAllIfBreak
        (iters.map (fun p => [Stm.ifG p.1 (p.2 ++ [Stm.brk]) []])) =
      some iters := by
  induction iters with
  | nil => rfl
  | cons p iters ih =>
      simp [matchAllIfBreak, matchIfBreak_pattern, ih]

/-- Unfolding of the single-cycle interpreter at a runtime-conditioned if:
the taken branch is spliced ahead of the remaining statements. -/
theorem runFree_ifG (prog : List Stm) (env : Guard → Bool) (g : Guard)
    (t e xs : List Stm) (k : Kont) (acc : List Act) :
    runFree prog env (Stm.ifG g t e :: xs) k acc =
      if env g then runFree prog env (t ++ xs) k acc
      else runFree prog env (e ++ xs) k acc := by
  simp [runFree]

/-- C4: a for loop whose body is exactly one If ending in Break, optionally
with a for-else fallback, is not unrolled by the normalizer: given the
per-iteration conditions and branches it is rewritten into a single chain of
If/Else-if/Else, and executing that chain is executing the branch of the
first iteration whose condition is true, with the fallback from the innermost
else executing when no condition is true. -/
theorem forIfBreak_firstTrue (iters : List (Guard × List Stm))
    (fb : List Stm) :
    normFor (iters.map fun p => [Stm.ifG p.1 (p.2 ++ [Stm.brk]) []]) fb =
      forBreakChain iters fb
    ∧ (iters ≠ [] → (forBreakChain iters fb).length = 1)
    ∧ ∀ (prog : List Stm) (env : Guard → Bool) (l : List Stm) (k : Kont)
        (acc : List Act),
        runFree prog env (forBreakChain iters fb ++ l) k acc =
          runFree prog env ((firstTrue env iters).getD fb ++ l) k acc := by
  refine ⟨?_, ?_, ?_⟩
  · simp [normFor, matchAllIfBreak_pattern]
  · intro h
    cases iters with
    | nil => exact absurd rfl h
    | cons p iters => simp [forBreakChain]
  · intro prog env l k acc
    induction iters generalizing l with
    | nil => rfl
    | cons p iters ih =>
        obtain ⟨c, br⟩ := p
        by_cases hc : env c = true
        · simp only [forBreakChain, List.cons_append, List.nil_append,
            runFree_ifG, if_pos hc, firstTrue, Option.getD_some]
        · simp only [forBreakChain, List.cons_append, List.nil_append,
            runFree_ifG, if_neg hc, firstTrue]
          exact ih l

/-- Closed instance of `forIfBreak_firstTrue` for a one-iteration loop with a
fallback, under an environment where no condition is true. -/
theorem forIfBreak_firstTrue_witness :
    normFor ([((0 : Guard), [Stm.act 1])].map
        fun p => [Stm.ifG p.1 (p.2 ++ [Stm.brk]) []]) [Stm.act 2] =
      forBreakChain [(0, [Stm.act 1])] [Stm.act 2]
    ∧ (forBreakChain [((0 : Guard), [Stm.act 1])] [Stm.act 2]).length = 1
    ∧ runFree [] (fun _ => false)
        (forBreakChain [(0, [Stm.act 1])] [Stm.act 2] ++ []) Kont.top [] =
        runFree [] (fun _ => false)
          ((firstTrue (fun _ => false) [(0, [Stm.act 1])]).getD [Stm.act 2]
            ++ []) Kont.top [] :=
  ⟨(forIfBreak_firstTrue [(0, [Stm.act 1])] [Stm.act 2]).1,
   (forIfBreak_firstTrue [(0, [Stm.act 1])] [Stm.act 2]).2.1 (by simp),
   (forIfBreak_firstTrue [(0, [Stm.act 1])] [Stm.act 2]).2.2 []
     (fun _ => false) [] Kont.top []⟩

/-- The invocation trace is additive over statement-list append. -/
theorem execSeq_append (env : Guard → Bool) (l₁ l₂ : List SeqStm) :
    execSeq env (l₁ ++ l₂) = execSeq env l₁ ++ execSeq env l₂ := by
  induction l₁ with
  | nil => simp [execSeq]
  | cons s rest ih =>
      cases s with
      | assign t v m => simp [execSeq, ih]
      | ifRt g thn els => simp [execSeq, ih]

/-- The trace of the inserted default assignments is one assignment per
push-mode Signal, in declaration order. -/
theorem execSeq_pushDefaults (env : Guard → Bool)
    (pushSigs : List (Nat × Nat)) :
    execSeq env
        (pushSigs.map (fun sd => SeqStm.assign sd.1 sd.2 AssignMode.next)) =
      pushSigs.map (fun sd => ⟨sd.1, sd.2, AssignMode.next⟩) := by
  induction pushSigs with
  | nil => simp [execSeq]
  | cons sd rest ih => simp [execSeq, ih]

/-- C5: for every Signal assigned with PUSH mode inside a context: the trace
of every generated invocation of the lowered context begins with the
assignment of each push-mode Signal's default value, ahead of everything the
body does under any signal environment - so the default is assigned before
any conditional PUSH; applying both PUSH and NEXT to one object fails with
InvalidAssignmentModeError, and so does PUSH on a Signal without a default
value. -/
theorem pushDefaults_and_modes (pushSigs : List (Nat × Nat))
    (body : List SeqStm) (env : Guard → Bool) (hasDef : Bool)
    (modes : List AssignMode) :
    execSeq env (insertPushDefaults pushSigs body) =
      pushSigs.map (fun sd => ⟨sd.1, sd.2, AssignMode.next⟩) ++
        execSeq env body
    ∧ (AssignMode.push ∈ modes → AssignMode.next ∈ modes →
        checkModes hasDef modes =
          Except.error CompileError.InvalidAssignmentModeError)
    ∧ (AssignMode.push ∈ modes →
        checkModes false modes =
          Except.error CompileError.InvalidAssignmentModeError) := by
  refine ⟨?_, ?_, ?_⟩
  · rw [insertPushDefaults, execSeq_append, execSeq_pushDefaults]
  · intro h1 h2
    simp [checkModes, h1, h2]
  · intro h1
    by_cases h2 : AssignMode.next ∈ modes
    · simp [checkModes, h1, h2]
    · simp [checkModes, h1, h2]

/-- Closed instance of `pushDefaults_and_modes` at a concrete context with
one push-mode Signal and a conditional push in the body. -/
theorem pushDefaults_and_modes_witness :
    execSeq (fun _ => true)
        (insertPushDefaults [(4, 0)]
          [SeqStm.ifRt 1 [SeqStm.assign 4 1 AssignMode.push] []]) =
      [(4, 0)].map (fun sd => ⟨sd.1, sd.2, AssignMode.next⟩) ++
        execSeq (fun _ => true)
          [SeqStm.ifRt 1 [SeqStm.assign 4 1 AssignMode.push] []]
    ∧ checkModes true [AssignMode.push, AssignMode.next] =
        Except.error CompileError.InvalidAssignmentModeError
    ∧ checkModes false [AssignMode.push] =
        Except.error CompileError.InvalidAssignmentModeError :=
  ⟨(pushDefaults_and_modes [(4, 0)]
      [SeqStm.ifRt 1 [SeqStm.assign 4 1 AssignMode.push] []] (fun _ => true)
      true [AssignMode.push, AssignMode.next]).1,
   (pushDefaults_and_modes [(4, 0)]
      [SeqStm.ifRt 1 [SeqStm.assign 4 1 AssignMode.push] []] (fun _ => true)
      true [AssignMode.push, AssignMode.next]).2.1 (by simp) (by simp),
   (pushDefaults_and_modes [(4, 0)]
      [SeqStm.ifRt 1 [SeqStm.assign 4 1 AssignMode.push] []] (fun _ => true)
      false [AssignMode.push]).2.2 (by simp)⟩

/-- C6: for every If whose condition is not a type-qualified object, the
condition is evaluated at compile time and the compiled output consists of
the statements of exactly the branch selected by the constant value; the
discarded branch produces no output and is not checked for runtime validity:
the result is the validation of the taken branch alone and is unchanged under
any replacement of the discarded branch, whatever the abstracted validity
check does on it. -/
theorem constIf_one_branch
    (v : List SeqStm → Except CompileError (List SeqStm)) (b : Bool)
    (t e t' e' : List SeqStm) :
    normConstIf Except.ok b t e = Except.ok (if b then t else e)
    ∧ normConstIf v true t e = v t
    ∧ normConstIf v true t e = normConstIf v true t e'
    ∧ normConstIf v false t e = v e
    ∧ normConstIf v false t e = normConstIf v false t' e := by
  refine ⟨?_, rfl, rfl, rfl, rfl⟩
  cases b <;> rfl

/-- Conflict half of the global driver check: a Signal contained in the
unconditionally-driven sets of two distinct contexts makes the check fail. -/
theorem checkDrivers_conflict (pre mid post : List (List Nat))
    (c₁ c₂ : List Nat) (s : Nat) (h₁ : s ∈ c₁) (h₂ : s ∈ c₂) :
    checkDrivers (pre ++ c₁ :: (mid ++ c₂ :: post)) =
      Except.error CompileError.MultipleDriverError := by
  induction pre with
  | nil =>
      have hc : (c₁.any fun x => (mid ++ c₂ :: post).any fun c => x ∈ c)
          = true := by
        simp only [List.any_eq_true, decide_eq_true_eq]
        exact ⟨s, h₁, ⟨c₂, by simp, h₂⟩⟩
      simp only [List.nil_append, checkDrivers]
      split
      · rfl
      · next hneg => exact absurd hc hneg
  | cons d pre ih =>
      simp only [List.cons_append, checkDrivers]
      split
      · rfl
      · exact ih

/-- C7: driving the same Signal unconditionally from two distinct contexts
fails the global check with MultipleDriverError, while any family of contexts
whose unconditionally-driven sets are pairwise disjoint - each Signal driven
by at most one context, however many contexts share it otherwise - passes
the check. -/
theorem multipleDriver_check :
    (∀ (pre mid post : List (List Nat)) (c₁ c₂ : List Nat) (s : Nat),
        s ∈ c₁ → s ∈ c₂ →
        checkDrivers (pre ++ c₁ :: (mid ++ c₂ :: post)) =
          Except.error CompileError.MultipleDriverError)
    ∧ (∀ ctxs : List (List Nat),
        ctxs.Pairwise (fun a b => ∀ s, s ∈ a → s ∉ b) →
        checkDrivers ctxs = Except.ok ()) := by
  constructor
  · exact checkDrivers_conflict
  · intro ctxs hp
    induction ctxs with
    | nil => rfl
    | cons d rest ih =>
        rw [List.pairwise_cons] at hp
        simp only [checkDrivers]
        split
        · next hpos =>
            exfalso
            simp only [List.any_eq_true, decide_eq_true_eq] at hpos
            obtain ⟨x, hx, c, hc, hxc⟩ := hpos
            exact hp.1 c hc x hx hxc
        · exact ih hp.2

/-- Closed instance of `multipleDriver_check`: two contexts driving Signal 3
fail the check, while two contexts driving different Signals pass it. -/
theorem multipleDriver_check_witness :
    checkDrivers ([] ++ [3] :: ([] ++ [3] :: [])) =
      Except.error CompileError.MultipleDriverError
    ∧ checkDrivers [[1], [2]] = Except.ok () :=
  ⟨multipleDriver_check.1 [] [] [] [3] [3] 3 (by simp) (by simp),
   multipleDriver_check.2 [[1], [2]] (by simp)⟩

/-- After rewriting, no expression of the context reads an output Port
directly: every such read has been redirected to the buffer Signal. -/
theorem readsPort_rewriteExpr (dir : Nat → PortDir) (p : Nat)
    (hout : dir p = PortDir.dirOut) (e : Expr) :
    readsPort p (rewriteExpr dir e) = false := by
  induction e with
  | readSig s => rfl
  | readPort q =>
      by_cases hq : q = p
      · subst hq
        simp [rewriteExpr, hout, readsPort]
      · simp only [rewriteExpr]
        split
        · rfl
        · simp [readsPort, hq]
  | readBuf q => rfl
  | unop e ih => simp [rewriteExpr, readsPort, ih]
  | binop l r ihl ihr => simp [rewriteExpr, readsPort, ihl, ihr]

/-- After rewriting, no driving statement of the context targets an output
Port directly: every such write has been redirected to the buffer Signal. -/
theorem targetsPort_rewriteAssign (dir : Nat → PortDir) (p : Nat)
    (hout : dir p = PortDir.dirOut) (a : CAssign) :
    targetsPort p (rewriteAssign dir a) = false := by
  cases a with
  | mk tgt v =>
      cases tgt with
      | sig s => rfl
      | buf q => rfl
      | port q =>
          by_cases hdq : dir q = PortDir.dirOut
          · simp [rewriteAssign, hdq, targetsPort]
          · have hq : (q == p) = false := by
              simp only [beq_eq_false_iff_ne, ne_eq]
              intro h
              exact hdq (h ▸ hout)
            simp [rewriteAssign, hdq, targetsPort, hq]

/-- The rewritten context body contains no driving statement targeting the
output port itself. -/
theorem filter_rewritten_body (dir : Nat → PortDir) (p : Nat)
    (hout : dir p = PortDir.dirOut) (body : List CAssign) :
    (body.map (rewriteAssign dir)).filter (targetsPort p) = [] := by
  induction body with
  | nil => rfl
  | cons a body ih =>
      simp [List.filter_cons, targetsPort_rewriteAssign dir p hout, ih]

/-- Among the generated buffer-to-port assignments, exactly the one for port
`p` targets `p`, provided the output ports are listed without duplicates. -/
theorem filter_buffer_assigns (p : Nat) (outs : List Nat)
    (hnd : outs.Nodup) :
    ((outs.map fun q => CAssign.mk (Tgt.port q) (Expr.readBuf q)).filter
        (targetsPort p)) =
      if p ∈ outs then [CAssign.mk (Tgt.port p) (Expr.readBuf p)] else [] := by
  induction outs with
  | nil => rfl
  | cons q outs ih =>
      rw [List.nodup_cons] at hnd
      by_cases hq : q = p
      · subst hq
        have hnot : ((outs.map fun r => CAssign.mk (Tgt.port r)
            (Expr.readBuf r)).filter (targetsPort q)) = [] := by
          rw [ih hnd.2]
          simp [hnd.1]
        simp [List.filter_cons, targetsPort, hnot]
      · have : targetsPort p (CAssign.mk (Tgt.port q) (Expr.readBuf q))
            = false := by simp [targetsPort, hq]
        simp [List.filter_cons, this, ih hnd.2, hq, List.mem_cons,
          eq_comm (a := p) (b := q)]

/-- C8: for every read of an output Port inside a context, the compiler
rewrites the read to the internally inserted buffer Signal - the rewritten
read of port `p` is the read of its buffer, and the rewritten body contains
no direct read of `p` at all - and the port itself remains write-only at the
hardware boundary: in the lowered design the statements driving port `p` are
exactly the single buffer-to-port assignment mirroring the driven value. -/
theorem outputPort_buffered (dir : Nat → PortDir) (outs : List Nat)
    (body : List CAssign) (p : Nat) (hout : dir p = PortDir.dirOut)
    (hnd : outs.Nodup) (hp : p ∈ outs) :
    rewriteExpr dir (Expr.readPort p) = Expr.readBuf p
    ∧ (∀ a ∈ body.map (rewriteAssign dir), readsPort p a.value = false)
    ∧ (lowerDesign dir outs body).filter (targetsPort p) =
        [CAssign.mk (Tgt.port p) (Expr.readBuf p)] := by
  refine ⟨by simp [rewriteExpr, hout], ?_, ?_⟩
  · intro a ha
    rw [List.mem_map] at ha
    obtain ⟨b, _, rfl⟩ := ha
    exact readsPort_rewriteExpr dir p hout b.value
  · rw [lowerDesign, List.filter_append,
      filter_rewritten_body dir p hout body, filter_buffer_assigns p outs hnd]
    simp [hp]

/-- Closed instance of `outputPort_buffered` at a concrete design: one output
port that is both read and driven by the context body. -/
theorem outputPort_buffered_witness :
    rewriteExpr (fun _ => PortDir.dirOut) (Expr.readPort 0) = Expr.readBuf 0
    ∧ (∀ a ∈ [CAssign.mk (Tgt.port 0) (Expr.unop (Expr.readPort 0))].map
          (rewriteAssign (fun _ => PortDir.dirOut)),
        readsPort 0 a.value = false)
    ∧ (lowerDesign (fun _ => PortDir.dirOut) [0]
          [CAssign.mk (Tgt.port 0) (Expr.unop (Expr.readPort 0))]).filter
        (targetsPort 0) =
        [CAssign.mk (Tgt.port 0) (Expr.readBuf 0)] :=
  outputPort_buffered (fun _ => PortDir.dirOut) [0]
    [CAssign.mk (Tgt.port 0) (Expr.unop (Expr.readPort 0))] 0 rfl
    (by simp) (by simp)

/-- Storage not listed as driven keeps its value in the reset branch. -/
theorem resetState_not_mem (driven : List Nat)
    (defaultOf : Nat → Option Nat) (s : Nat) (hs : s ∉ driven) :
    ∀ st : Nat → Nat, resetState driven defaultOf st s = st s := by
  induction driven with
  | nil => intro st; rfl
  | cons t rest ih =>
      intro st
      rw [List.mem_cons] at hs
      push_neg at hs
      simp only [resetState]
      cases h : defaultOf t with
      | none => exact ih hs.2 st
      | some d =>
          dsimp only
          rw [ih hs.2 (Function.update st t d)]
          exact Function.update_noteq hs.1 d st

/-- Driven storage with a default value receives that default in the reset
branch. -/
theorem resetState_mem_default (driven : List Nat)
    (defaultOf : Nat → Option Nat) (s d : Nat) (hs : s ∈ driven)
    (hd : defaultOf s = some d) :
    ∀ st : Nat → Nat, resetState driven defaultOf st s = d := by
  induction driven with
  | nil => exact absurd hs (List.not_mem_nil s)
  | cons t rest ih =>
      intro st
      by_cases hts : t = s
      · subst hts
        simp only [resetState, hd]
        by_cases hrest : t ∈ rest
        · exact ih hrest _
        · rw [resetState_not_mem rest defaultOf t hrest
            (Function.update st t d)]
          simp
      · have hs' : s ∈ rest := by
          rcases List.mem_cons.mp hs with h | h
          · exact absurd h.symm hts
          · exact h
        simp only [resetState]
        cases hdt : defaultOf t with
        | none => exact ih hs' st
        | some d' => exact ih hs' _

/-- Driven storage without a default value keeps its value in the reset
branch. -/
theorem resetState_no_default (driven : List Nat)
    (defaultOf : Nat → Option Nat) (s : Nat) (hd : defaultOf s = none) :
    ∀ st : Nat → Nat, resetState driven defaultOf st s = st s := by
  induction driven with
  | nil => intro st; rfl
  | cons t rest ih =>
      intro st
      simp only [resetState]
      by_cases hts : t = s
      · subst hts
        rw [hd]
        exact ih st
      · cases hdt : defaultOf t with
        | none => exact ih st
        | some d' =>
            dsimp only
            rw [ih (Function.update st t d')]
            exact Function.update_noteq (fun h => hts h.symm) d' st

/-- C10: for every SequentialContext compiled with a Reset parameter, each
generated invocation either executes the context body - when the reset is
inactive - or assigns their default values to exactly those storage objects
that are driven by the context and have default values: a driven object with
default `d` ends at `d`, while an object not driven by the context, or
driven but without a default value, is left unchanged. -/
theorem resetInvocation_frame (driven : List Nat)
    (defaultOf : Nat → Option Nat) (body : (Nat → Nat) → Nat → Nat)
    (st : Nat → Nat) (s d : Nat) :
    seqInvocation false driven defaultOf body st = body st
    ∧ (s ∈ driven → defaultOf s = some d →
        seqInvocation true driven defaultOf body st s = d)
    ∧ (s ∉ driven → seqInvocation true driven defaultOf body st s = st s)
    ∧ (defaultOf s = none →
        seqInvocation true driven defaultOf body st s = st s) := by
  refine ⟨rfl, ?_, ?_, ?_⟩
  · intro hs hd
    exact resetState_mem_default driven defaultOf s d hs hd st
  · intro hs
    exact resetState_not_mem driven defaultOf s hs st
  · intro hd
    exact resetState_no_default driven defaultOf s hd st

/-- Closed instance of `resetInvocation_frame` at a concrete context driving
Signals 0 (default 5) and 1 (no default), with Signal 2 untouched. -/
theorem resetInvocation_frame_witness :
    seqInvocation false [0, 1] (fun s => if s = 0 then some 5 else none)
        (fun st => st) (fun _ => 9) =
      (fun st => st) (fun _ => 9)
    ∧ seqInvocation true [0, 1] (fun s => if s = 0 then some 5 else none)
        (fun st => st) (fun _ => 9) 0 = 5
    ∧ seqInvocation true [0, 1] (fun s => if s = 0 then some 5 else none)
        (fun st => st) (fun _ => 9) 2 = (fun _ : Nat => (9 : Nat)) 2
    ∧ seqInvocation true [0, 1] (fun s => if s = 0 then some 5 else none)
        (fun st => st) (fun _ => 9) 1 = (fun _ : Nat => (9 : Nat)) 1 :=
  ⟨(resetInvocation_frame [0, 1] (fun s => if s = 0 then some 5 else none)
      (fun st => st) (fun _ => 9) 0 5).1,
   (resetInvocation_frame [0, 1] (fun s => if s = 0 then some 5 else none)
      (fun st => st) (fun _ => 9) 0 5).2.1 (by simp) (by simp),
   (resetInvocation_frame [0, 1] (fun s => if s = 0 then some 5 else none)
      (fun st => st) (fun _ => 9) 2 5).2.2.1 (by simp),
   (resetInvocation_frame [0, 1] (fun s => if s = 0 then some 5 else none)
      (fun st => st) (fun _ => 9) 1 5).2.2.2 (by simp)⟩

end CoHDL
